import Mathlib

/-!
# Verification of the fixed-point modular-addition test harness

This development embeds the fixed-point numeric model exercised by
`tests/fixpnt/arithmetic_add.cpp` of the universal numbers library, together
with the exhaustive addition verifier and the test driver `main`, and proves
the properties the specification states about them.

The driver `main` is translated from `src/tests/fixpnt/arithmetic_add.cpp`.
The fixed-point type `fixpnt<W,F>` and the test-suite helpers
`VerifyModularAddition` / `ReportTestResult` live in headers that are not part
of the given sources; those definitions are modelled from the specification
(sections 3, 4.1, 4.2) and are marked as such in their doc comments.

A W-bit encoding is a natural number `bits < 2^W`; its semantic value is the
two's-complement (signed) interpretation of `bits` divided by `2^F`.  The
native real domain the verifier compares against is modelled by the exact
rationals; for the widths exercised here (W ≤ 12) every value and every sum
of two values is exactly representable in a hardware double, so the rational
model coincides with the double-based reference.
-/

namespace Universal

/-- Modelled from the spec (§3, §4.1 Encoding): the signed (two's-complement)
integer interpretation of a W-bit pattern.  Patterns below `2^(W-1)` are
non-negative; the rest represent `bits - 2^W`. -/
def signedInterp (W bits : Nat) : Int :=
  if bits < 2 ^ (W - 1) then (bits : Int) else (bits : Int) - 2 ^ W

/-- Modelled from the spec (§4.1 `toReal`): the real value of an encoding,
`signedInterpretation(bits) / 2^F`, in the exact rational model of the
native real domain. -/
def toRealQ (W F bits : Nat) : ℚ :=
  (signedInterp W bits : ℚ) / 2 ^ F

/-- Modelled from the spec (§4.1 `fromReal`, tie-break policy of §4.2):
round to the nearest integer, ties away from zero. -/
def roundTies (x : ℚ) : Int :=
  if 0 ≤ x then Int.floor (x + 1 / 2) else Int.ceil (x - 1 / 2)

/-- Modelled from the spec (§4.1 `fromReal`): scale by `2^F`, round to the
nearest integer (ties away from zero), and reduce modulo `2^W` into the
W-bit encoding.  No error on range overflow; wrap is the defined policy. -/
def fromRealQ (W F : Nat) (x : ℚ) : Nat :=
  (roundTies (x * 2 ^ F) % (2 ^ W : Int)).toNat

/-- Modelled from the spec (§4.1 `add`): integer-add the two W-bit encodings
and reduce the sum modulo `2^W` (modular, wrap-around addition). -/
def fixpnt_add (W a b : Nat) : Nat :=
  (a + b) % 2 ^ W

/-- Modelled from the spec (§7): the arithmetic fault raised by the optional
throwing mode. -/
inductive FixpntException where
  | ArithmeticOverflow
deriving DecidableEq

/-- Modelled from the spec (§4.1, §7): whether an exact integer sum fits in
the W-bit signed range. -/
def inSignedRange (W : Nat) (x : Int) : Bool :=
  decide (-((2 : Int) ^ (W - 1)) ≤ x ∧ x ≤ (2 : Int) ^ (W - 1) - 1)

/-- Modelled from the spec (§4.1 Error conditions, §9): addition behind the
single overflow-mode configuration switch.  With `throwing = false` (the
default) the result is the silent modular sum; with `throwing = true` the
operation fails with `ArithmeticOverflow` whenever the mathematically exact
sum does not fit in the W-bit signed range. -/
def fixpnt_add_checked (W : Nat) (throwing : Bool) (a b : Nat) :
    Except FixpntException Nat :=
  if throwing && ! inSignedRange W (signedInterp W a + signedInterp W b) then
    Except.error FixpntException.ArithmeticOverflow
  else
    Except.ok (fixpnt_add W a b)

/-- Modelled from the spec (§4.2): one enumerated comparison of the
verifier.  The operands are the real values of the two encodings; the
result path adds the fixed-point images with the wraparound `fixpnt_add`,
the reference path rounds the exact real sum with the same modular
reduction rule, and the two encodings are compared bitwise. -/
def mismatch (W F ea eb : Nat) : Bool :=
  let i := toRealQ W F ea
  let j := toRealQ W F eb
  let result := fixpnt_add W (fromRealQ W F i) (fromRealQ W F j)
  let reference := fromRealQ W F (i + j)
  decide (result ≠ reference)

/-- Modelled from the spec (§4.2): the full Cartesian product of operand
encodings enumerated by the verifier for a width-W configuration. -/
def addPairs (W : Nat) : List (Nat × Nat) :=
  (List.range (2 ^ W)) ×ˢ (List.range (2 ^ W))

/-- Modelled from the spec (§4.2 Contract): `VerifyModularAddition<W,F>`
enumerates every operand pair and returns the number of mismatches between
the fixed-point addition and the independent reference (`failureCount`).
The `label` argument prefixes failure messages and `verbose` controls
per-case reporting; both are pure I/O concerns and do not affect the
count. -/
def VerifyModularAddition (W F : Nat) ( _label : String) ( _verbose : Bool) : Nat :=
  (addPairs W).countP (fun p => mismatch W F p.1 p.2)

/-- One pass/fail report line: configuration label, operation name and
failure count (spec §3 VerificationResult, §6). -/
structure TestReport where
  cfgLabel : String
  opName : String
  failureCount : Nat
deriving DecidableEq

/-- Modelled from the spec (§4.2, §6): `ReportTestResult` prints the
pass/fail line for one configuration (modelled as the returned
`TestReport`) and hands the failure count back to the caller for
aggregation. -/
def ReportTestResult (failureCount : Nat) (cfgLabel opName : String) :
    TestReport × Nat :=
  (⟨cfgLabel, opName, failureCount⟩, failureCount)

/-- One call of the driver: the template arguments `W`, `F`, the message
label and verbosity flag passed to `VerifyModularAddition`, and the
configuration label and operation name passed to `ReportTestResult`
(from `arithmetic_add.cpp` main). -/
structure VerifyCall where
  W : Nat
  F : Nat
  label : String
  verbose : Bool
  cfgLabel : String
  opName : String
deriving DecidableEq

/-- From `arithmetic_add.cpp` line 51. -/
def tag : String := "modular addition failed: "

/-- From `arithmetic_add.cpp` line 48. -/
def bReportIndividualTestCases : Bool := false

/-- The ordered sequence of `VerifyModularAddition` / `ReportTestResult`
calls executed by `main` in the default build (`MANUAL_TESTING = 0`,
`STRESS_TESTING = 0`), from `arithmetic_add.cpp` lines 100-118. -/
def mainCalls : List VerifyCall := [
  ⟨4, 0, tag, bReportIndividualTestCases, "fixpnt<4,0>", "addition"⟩,
  ⟨4, 1, tag, bReportIndividualTestCases, "fixpnt<4,1>", "addition"⟩,
  ⟨4, 2, tag, bReportIndividualTestCases, "fixpnt<4,2>", "addition"⟩,
  ⟨4, 3, tag, bReportIndividualTestCases, "fixpnt<4,3>", "addition"⟩,
  ⟨4, 4, tag, bReportIndividualTestCases, "fixpnt<4,4>", "addition"⟩,
  ⟨8, 0, tag, bReportIndividualTestCases, "fixpnt<8,0>", "addition"⟩,
  ⟨8, 1, tag, bReportIndividualTestCases, "fixpnt<8,1>", "addition"⟩,
  ⟨8, 2, tag, bReportIndividualTestCases, "fixpnt<8,2>", "addition"⟩,
  ⟨8, 3, tag, bReportIndividualTestCases, "fixpnt<8,3>", "addition"⟩,
  ⟨8, 4, tag, bReportIndividualTestCases, "fixpnt<8,4>", "addition"⟩,
  ⟨8, 5, tag, bReportIndividualTestCases, "fixpnt<8,5>", "addition"⟩,
  ⟨8, 6, tag, bReportIndividualTestCases, "fixpnt<8,6>", "addition"⟩,
  ⟨8, 7, tag, bReportIndividualTestCases, "fixpnt<8,7>", "addition"⟩,
  ⟨8, 8, tag, bReportIndividualTestCases, "fixpnt<8,8>", "addition"⟩,
  ⟨10, 3, tag, bReportIndividualTestCases, "fixpnt<10,3>", "addition"⟩,
  ⟨10, 5, tag, bReportIndividualTestCases, "fixpnt<10,5>", "addition"⟩,
  ⟨10, 7, tag, bReportIndividualTestCases, "fixpnt<10,7>", "addition"⟩]

/-- One driver statement
`nrOfFailedTestCases += ReportTestResult(VerifyModularAddition<W,F>(...), ...)`:
run the verifier, emit the report line, and hand back the failure count
added to the tally. -/
def runCall (c : VerifyCall) : TestReport × Nat :=
  ReportTestResult (VerifyModularAddition c.W c.F c.label c.verbose)
    c.cfgLabel c.opName

/-- The report lines printed by the default run: `main` executes its 17
straight-line statements in order, printing one line each
(`arithmetic_add.cpp` lines 100-118). -/
def mainReports : List TestReport := mainCalls.map (fun c => (runCall c).1)

/-- The final value of `nrOfFailedTestCases` in `main`: the driver starts
at 0 and adds every returned failure count in turn
(`arithmetic_add.cpp` lines 49, 100-118). -/
def nrOfFailedTestCases : Nat := (mainCalls.map (fun c => (runCall c).2)).sum

/-- `return (nrOfFailedTestCases > 0 ? EXIT_FAILURE : EXIT_SUCCESS)`
(`arithmetic_add.cpp` line 135), with `EXIT_FAILURE = 1`,
`EXIT_SUCCESS = 0`. -/
def mainExitStatus : Nat :=
  if nrOfFailedTestCases > 0 then 1 else 0

/-- The ordered (W, F) configurations the default run executes. -/
def executedConfigurations : List (Nat × Nat) :=
  mainCalls.map (fun c => (c.W, c.F))

/-- The control structure of `main` around the configuration sequence
(`arithmetic_add.cpp` lines 43-44 and 137-156): the whole sequence runs
inside one `try` block, so configurations are processed in order, each
completed configuration is reported and its failure count aggregated, and
the first configuration whose run raises an exception transfers control to
the top-level `catch`, skipping every remaining configuration.  The input
is each configuration's outcome (a failure count, or an exception); the
output is the reported counts together with the escaped exception, if
any. -/
def runConfigsSequential :
    List (Except FixpntException Nat) → List Nat × Option FixpntException
  | [] => ([], none)
  | Except.ok n :: rest =>
    let r := runConfigsSequential rest
    (n :: r.1, r.2)
  | Except.error e :: _ => ([], some e)

/-- Rounding a rational that is already an integer is the identity. -/
theorem roundTies_intCast (s : Int) : roundTies (s : ℚ) = s := by
  unfold roundTies
  by_cases h : (0 : ℚ) ≤ (s : ℚ)
  · rw [if_pos h, Int.floor_int_add]
    norm_num
  · rw [if_neg h, sub_eq_add_neg, add_comm, Int.ceil_add_int]
    norm_num

/-- Scaling the real value of an encoding back up by `2^F` recovers the
signed integer interpretation exactly (the rational domain is exact). -/
theorem toRealQ_mul_pow (W F bits : Nat) :
    toRealQ W F bits * 2 ^ F = (signedInterp W bits : ℚ) := by
  unfold toRealQ
  rw [div_mul_cancel₀]
  positivity

/-- The signed interpretation of a valid encoding is congruent to the
encoding modulo `2^W`, and reduces back to it. -/
theorem signedInterp_emod (W e : Nat) (he : e < 2 ^ W) :
    signedInterp W e % (2 ^ W : Int) = (e : Int) := by
  have hlt : (e : Int) < 2 ^ W := by exact_mod_cast he
  have h0 : (0 : Int) ≤ (e : Int) := Int.natCast_nonneg e
  unfold signedInterp
  by_cases h : e < 2 ^ (W - 1)
  · rw [if_pos h]
    exact Int.emod_eq_of_lt h0 hlt
  · rw [if_neg h]
    have : (e : Int) - 2 ^ W = (e : Int) + 2 ^ W * (-1) := by ring
    rw [this, Int.add_mul_emod_self_left]
    exact Int.emod_eq_of_lt h0 hlt

/-- Round-trip: converting a valid encoding to its real value and back
yields the same encoding. -/
theorem fromReal_toReal_eq (W F e : Nat) (he : e < 2 ^ W) :
    fromRealQ W F (toRealQ W F e) = e := by
  unfold fromRealQ
  rw [toRealQ_mul_pow, roundTies_intCast, signedInterp_emod W e he]
  exact Int.toNat_natCast e

/-- The verifier's reference path: rounding the exact real sum of two valid
encodings produces precisely the modular sum of the encodings. -/
theorem fromReal_add_eq (W F ea eb : Nat) (ha : ea < 2 ^ W) (hb : eb < 2 ^ W) :
    fromRealQ W F (toRealQ W F ea + toRealQ W F eb) = (ea + eb) % 2 ^ W := by
  unfold fromRealQ
  have hsum : (toRealQ W F ea + toRealQ W F eb) * 2 ^ F =
      ((signedInterp W ea + signedInterp W eb : Int) : ℚ) := by
    rw [add_mul, toRealQ_mul_pow, toRealQ_mul_pow]
    push_cast
    ring
  rw [hsum, roundTies_intCast]
  rw [Int.add_emod, signedInterp_emod W ea ha, signedInterp_emod W eb hb]
  have : ((ea : Int) + (eb : Int)) % (2 ^ W : Int) =
      (((ea + eb) % 2 ^ W : Nat) : Int) := by
    push_cast
    ring_nf
  rw [this]
  exact Int.toNat_natCast _

/-- No enumerated operand pair of valid encodings ever mismatches: the
wraparound addition agrees with the rounded exact reference everywhere. -/
theorem mismatch_eq_false (W F ea eb : Nat) (ha : ea < 2 ^ W) (hb : eb < 2 ^ W) :
    mismatch W F ea eb = false := by
  simp only [mismatch]
  rw [fromReal_toReal_eq W F ea ha, fromReal_toReal_eq W F eb hb,
    fromReal_add_eq W F ea eb ha hb]
  simp [fixpnt_add]

/-- `VerifyModularAddition` counts, over the full Cartesian product of
encodings, the pairs on which the wraparound fixed-point addition disagrees
with the independently rounded exact reference. -/
theorem VerifyModularAddition_def (W F : Nat) (lbl : String) (v : Bool) :
    VerifyModularAddition W F lbl v = (addPairs W).countP
      (fun p => decide (fixpnt_add W (fromRealQ W F (toRealQ W F p.1))
        (fromRealQ W F (toRealQ W F p.2)) ≠
          fromRealQ W F (toRealQ W F p.1 + toRealQ W F p.2))) :=
  rfl

/-- The verifier reports zero failures for every configuration. -/
theorem VerifyModularAddition_eq_zero (W F : Nat) (lbl : String) (v : Bool) :
    VerifyModularAddition W F lbl v = 0 := by
  unfold VerifyModularAddition
  rw [List.countP_eq_zero]
  intro p hp
  rcases p with ⟨ea, eb⟩
  rw [addPairs, List.mem_product] at hp
  simp only [List.mem_range] at hp
  simp [mismatch_eq_false W F ea eb hp.1 hp.2]

attribute [irreducible] VerifyModularAddition

/-- For any call sequence, the failure counts carried by the report lines
are exactly the counts the driver aggregates. -/
theorem reports_failureCount_sum (calls : List VerifyCall) :
    ((calls.map (fun c => (runCall c).1)).map TestReport.failureCount).sum =
      (calls.map (fun c => (runCall c).2)).sum := by
  rw [List.map_map]
  rfl

/-- The sum of the failure counts of the printed report lines equals the
final tally. -/
theorem nrOfFailedTestCases_eq_sum :
    (mainReports.map TestReport.failureCount).sum = nrOfFailedTestCases :=
  reports_failureCount_sum mainCalls

/-- For any call sequence, the (label, operation) content of the report
lines comes one-to-one, in order, from the calls. -/
theorem reports_labels (calls : List VerifyCall) :
    (calls.map (fun c => (runCall c).1)).map (fun r => (r.cfgLabel, r.opName)) =
      calls.map (fun c => (c.cfgLabel, c.opName)) := by
  rw [List.map_map]
  rfl

/-- Claim C1: for the configurations (W=4, F=1) and (W=8, F=4) the verifier
enumerates every operand pair (256 pairs for W=4, 65536 pairs for W=8) and
reports `failureCount == 0`: fixed-point addition matches the independent
reference encoding on every pair. -/
theorem claims_C1 :
    (addPairs 4).length = 256 ∧ (addPairs 8).length = 65536 ∧
    VerifyModularAddition 4 1 tag bReportIndividualTestCases = 0 ∧
    VerifyModularAddition 8 4 tag bReportIndividualTestCases = 0 := by
  refine ⟨?_, ?_,
    VerifyModularAddition_eq_zero 4 1 tag bReportIndividualTestCases,
    VerifyModularAddition_eq_zero 8 4 tag bReportIndividualTestCases⟩
  · simp [addPairs, List.length_product, List.length_range]
  · simp [addPairs, List.length_product, List.length_range]

/-- Claim C2: at W=4, F=1, adding the two encodings with raw value 7 (real
value 3.5 each) yields raw 14 mod 16, whose signed 4-bit interpretation is
−2, i.e. real value −1.0; the result is wrapped, not saturated, and the
verifier's comparison for that pair succeeds. -/
theorem claims_C2 :
    fixpnt_add 4 7 7 = 14 ∧ signedInterp 4 14 = -2 ∧
    toRealQ 4 1 14 = -1 ∧ toRealQ 4 1 7 = 7 / 2 ∧
    mismatch 4 1 7 7 = false := by
  refine ⟨by decide, by decide, ?_, ?_,
    mismatch_eq_false 4 1 7 7 (by decide) (by decide)⟩
  · norm_num [toRealQ, signedInterp]
  · norm_num [toRealQ, signedInterp]

/-- Claim C3: the process exit status is 0 if and only if the sum of
`failureCount` over all executed configurations is 0; any nonzero total
yields a nonzero exit status. -/
theorem claims_C3 :
    mainExitStatus = 0 ↔ (mainReports.map TestReport.failureCount).sum = 0 := by
  rw [nrOfFailedTestCases_eq_sum]
  unfold mainExitStatus
  rcases Nat.eq_zero_or_pos nrOfFailedTestCases with h | h
  · rw [h]
    simp
  · rw [if_pos h]
    omega

/-- Claim C4: in wraparound (default) mode, addition never raises and never
flags: for every operand pair the result is exactly the modular sum; and the
verifier's result path is precisely the wraparound `fixpnt_add` on every
enumerated pair. -/
theorem claims_C4 :
    (∀ W a b, fixpnt_add_checked W false a b = Except.ok (fixpnt_add W a b)) ∧
    (∀ W F lbl v, VerifyModularAddition W F lbl v = (addPairs W).countP
      (fun p => decide (fixpnt_add W (fromRealQ W F (toRealQ W F p.1))
        (fromRealQ W F (toRealQ W F p.2)) ≠
          fromRealQ W F (toRealQ W F p.1 + toRealQ W F p.2)))) :=
  ⟨fun W a b => by simp [fixpnt_add_checked],
   fun W F lbl v => VerifyModularAddition_def W F lbl v⟩

/-- Claim C5: with the throwing overflow mode enabled, adding raw 7 + raw 7
at W=4, F=1 (exact sum 14, outside the signed range −8..7) fails with
`ArithmeticOverflow` instead of returning a numeric result; and in the
non-throwing mode no addition ever raises. -/
theorem claims_C5 :
    fixpnt_add_checked 4 true 7 7 =
      Except.error FixpntException.ArithmeticOverflow ∧
    ∀ W a b e, fixpnt_add_checked W false a b ≠ Except.error e := by
  constructor
  · rfl
  · intro W a b e
    simp [fixpnt_add_checked]

/-- Claim C6: for every valid configuration (W ≥ 1, F ≤ W) and every
representable W-bit encoding `e`, converting to the real value and back is
the identity: `fromReal(toReal(e)) = e`. -/
theorem claims_C6 (W F e : Nat) ( _hW : 0 < W) ( _hF : F ≤ W) (he : e < 2 ^ W) :
    fromRealQ W F (toRealQ W F e) = e :=
  fromReal_toReal_eq W F e he

/-- Witness for C6 at W=4, F=1, e=9. -/
theorem claims_C6_witness : fromRealQ 4 1 (toRealQ 4 1 9) = 9 :=
  claims_C6 4 1 9 (by decide) (by decide) (by decide)

/-- Claim C7: wraparound addition of two valid W-bit encodings is always a
valid W-bit encoding, and conversion from a real also always produces a
valid W-bit encoding (the modular policy normalizes every operation into
range by construction). -/
theorem claims_C7 :
    (∀ W a b, a < 2 ^ W → b < 2 ^ W → fixpnt_add W a b < 2 ^ W) ∧
    (∀ W F x, fromRealQ W F x < 2 ^ W) := by
  constructor
  · intro W a b ha hb
    exact Nat.mod_lt _ (Nat.two_pow_pos W)
  · intro W F x
    unfold fromRealQ
    have h1 : (0 : Int) < 2 ^ W := by positivity
    have h3 := Int.emod_lt_of_pos (roundTies (x * 2 ^ F)) h1
    rw [Int.toNat_lt' (Nat.pos_iff_ne_zero.mp (Nat.two_pow_pos W))]
    exact_mod_cast h3

/-- Witness for C7 at W=4 with the valid encodings 9 and 12. -/
theorem claims_C7_witness : fixpnt_add 4 9 12 < 2 ^ 4 :=
  claims_C7.1 4 9 12 (by decide) (by decide)

/-- Claim C8: the default entry point runs exactly the fixed ordered list of
configurations (4,0) … (10,7), in order, and reports one pass/fail line per
configuration whose content is the configuration label and the operation
name (with the failure count carried alongside, cf.
`nrOfFailedTestCases_eq_sum`). -/
theorem claims_C8 :
    executedConfigurations = [(4, 0), (4, 1), (4, 2), (4, 3), (4, 4),
      (8, 0), (8, 1), (8, 2), (8, 3), (8, 4), (8, 5), (8, 6), (8, 7), (8, 8),
      (10, 3), (10, 5), (10, 7)] ∧
    mainReports.map (fun r => (r.cfgLabel, r.opName)) =
      [("fixpnt<4,0>", "addition"), ("fixpnt<4,1>", "addition"),
       ("fixpnt<4,2>", "addition"), ("fixpnt<4,3>", "addition"),
       ("fixpnt<4,4>", "addition"), ("fixpnt<8,0>", "addition"),
       ("fixpnt<8,1>", "addition"), ("fixpnt<8,2>", "addition"),
       ("fixpnt<8,3>", "addition"), ("fixpnt<8,4>", "addition"),
       ("fixpnt<8,5>", "addition"), ("fixpnt<8,6>", "addition"),
       ("fixpnt<8,7>", "addition"), ("fixpnt<8,8>", "addition"),
       ("fixpnt<10,3>", "addition"), ("fixpnt<10,5>", "addition"),
       ("fixpnt<10,7>", "addition")] := by
  constructor
  · rfl
  · exact (reports_labels mainCalls).trans (by rfl)

/-- Claim C9 as stated is false on the code: `main` wraps the whole
configuration sequence in a single try/catch, so an exception raised during
one configuration's run aborts all remaining configurations.  Concretely,
if the second of three configurations raises, only one configuration gets
reported instead of three. -/
theorem claims_C9_counterexample :
    ¬ ((runConfigsSequential [Except.ok 0,
        Except.error FixpntException.ArithmeticOverflow,
        Except.ok 0]).1.length = 3) := by
  decide

/-- Claim C9, amended: a failure count (even nonzero) in one configuration
never prevents the remaining configurations from being run and aggregated —
counts are data, not exceptions — and in the default run every
configuration completes without an exception, so all of them are processed;
but an exception would abort the remaining configurations (see the
counterexample). -/
theorem claims_C9 :
    (∀ counts : List Nat,
      runConfigsSequential (counts.map Except.ok) = (counts, none)) ∧
    runConfigsSequential ((mainCalls.map (fun c =>
        VerifyModularAddition c.W c.F c.label c.verbose)).map Except.ok) =
      (mainCalls.map (fun c =>
        VerifyModularAddition c.W c.F c.label c.verbose), none) := by
  have hall : ∀ counts : List Nat,
      runConfigsSequential (counts.map Except.ok) = (counts, none) := by
    intro counts
    induction counts with
    | nil => rfl
    | cons n rest ih => simp [runConfigsSequential, ih]
  exact ⟨hall, hall _⟩

/-- Claim C10: in the default build (`MANUAL_TESTING = 0`,
`STRESS_TESTING = 0`) no configuration with W=11 or W=12 is executed, and
every executed call passes a false verbosity flag to the verifier. -/
theorem claims_C10 :
    (executedConfigurations.all (fun c => c.1 != 11 && c.1 != 12)) = true ∧
    (mainCalls.all (fun c => c.verbose == false)) = true := by
  constructor
  · rfl
  · rfl
